import Mathlib

/-!
Shallow embedding of pikaur's update-classification and report-printing core
(`pikaur/updates.py` and `pikaur/print_department.py`), together with theorems
checking the natural-language specification of that core against the code.

Conventions of the embedding:
* Python dictionaries are modelled as association lists; a failed subscript
  lookup (Python `KeyError`) is modelled by returning `none` from the
  surrounding function.
* Python `datetime` values are modelled as Unix timestamps (`Int` seconds);
  `timedelta.days` is floor division by 86400, matching Python semantics for
  negative spans as well.
* Python machine-independent `int` maps to `Int`/`Nat`; version strings stay
  abstract (`String`), and the external `version.compare_versions` /
  `version.get_common_version` collaborators are parameters of the embedding.
* Side effects that the claims mention (printed skip notices) are modelled as
  explicitly returned lists.
-/

namespace Pikaur

/-! ## Python primitives -/

/-- Python string `<`: lexicographic comparison of code points. -/
def pyStrListLt : List Char → List Char → Bool
  | [], [] => false
  | [], _ :: _ => true
  | _ :: _, [] => false
  | a :: as, b :: bs =>
    if a.toNat < b.toNat then true
    else if b.toNat < a.toNat then false
    else pyStrListLt as bs

/-- Python `a < b` on strings. -/
def pyStrLt (a b : String) : Bool := pyStrListLt a.data b.data

/-- Helper for `pyEndsWith`: Boolean list-prefix test. -/
def listPrefixOf : List Char → List Char → Bool
  | [], _ => true
  | _ :: _, [] => false
  | a :: as, b :: bs => a == b && listPrefixOf as bs

/-- Python `s.endswith(suffix)`. -/
def pyEndsWith (s suffix : String) : Bool :=
  listPrefixOf suffix.data.reverse s.data.reverse

/-- Insert `x` into an already-sorted list, after all elements that are not
strictly greater: together with `pySorted` this reproduces the stable sort
contract of Python's `sorted`. -/
def insertStable (lt : α → α → Bool) (x : α) : List α → List α
  | [] => [x]
  | y :: ys => if lt x y then x :: y :: ys else y :: insertStable lt x ys

/-- Python `sorted(xs, key=...)` for a strict key comparison `lt`:
a stable sort (elements with equal keys keep their input order). -/
def pySorted (lt : α → α → Bool) (xs : List α) : List α :=
  xs.foldl (fun acc x => insertStable lt x acc) []

/-- Python truthiness of an optional integer (`None` and `0` are falsy). -/
def pyTruthyOptInt (o : Option Int) : Bool :=
  match o with
  | none => false
  | some v => v != 0

/-! ## `updates.py`: devel-package suffix rule -/

def DEVEL_PKGS_POSTFIXES : List String :=
  ["-git", "-svn", "-bzr", "-hg", "-cvs", "-nightly"]

/-- `updates.is_devel_pkg`: the source loops over `DEVEL_PKGS_POSTFIXES`,
setting `result = True` and breaking on the first matching suffix —
i.e. an existential over the suffix list. -/
def is_devel_pkg (pkg_name : String) : Bool :=
  DEVEL_PKGS_POSTFIXES.any (fun devel_pkg_postfix => pyEndsWith pkg_name devel_pkg_postfix)

/-! ## Data model (`core.py` records, restricted to the fields this core reads) -/

structure AURPackageInfo where
  name : String
  version : String
  desc : String := ""
  maintainer : Option String := none
  outofdate : Option Int := none
deriving Repr, DecidableEq

structure LocalPackage where
  version : String
  installdate : Int := 0
deriving Repr, DecidableEq

/-- `core.AURInstallInfo`, restricted to the fields `updates.py` sets. -/
structure AURInstallInfo where
  name : String
  current_version : String
  new_version : String
  description : String := ""
  devel_pkg_age_days : Option Int := none
  maintainer : Option String := none
  package : AURPackageInfo
deriving Repr, DecidableEq

/-- Python dict lookup returning `none` on a missing key. -/
def dictGet (d : List (String × LocalPackage)) (k : String) : Option LocalPackage :=
  (d.find? (fun kv => kv.1 == k)).map (fun kv => kv.2)

/-! ## `updates.py`: devel staleness (`find_aur_devel_updates`) -/

/-- `(now - datetime.fromtimestamp(installdate)).days`. -/
def pkgAgeDays (now installdate : Int) : Int := Int.fdiv (now - installdate) 86400

/-- The `AURInstallInfo` synthesized by `find_aur_devel_updates` for a stale
devel package. -/
def devel_install_info (aur_pkg : AURPackageInfo) (local_pkg : LocalPackage)
    (pkg_age_days : Int) : AURInstallInfo :=
  { name := aur_pkg.name
    current_version := local_pkg.version
    new_version := "devel"
    description := aur_pkg.desc
    devel_pkg_age_days := some pkg_age_days
    maintainer := aur_pkg.maintainer
    package := aur_pkg }

/-- The `for aur_pkg in sorted(...)` loop body of `find_aur_devel_updates`:
skip non-devel names, look the package up in the local dict (`KeyError` →
`none`), and append a synthesized record when the whole-day install age
reaches `package_ttl_days`. -/
def find_aur_devel_updates_loop (local_packages : List (String × LocalPackage))
    (now package_ttl_days : Int) :
    List AURPackageInfo → Option (List AURInstallInfo)
  | [] => some []
  | aur_pkg :: rest =>
    if is_devel_pkg aur_pkg.name then
      match dictGet local_packages aur_pkg.name with
      | none => none
      | some local_pkg =>
        let pkg_age_days := pkgAgeDays now local_pkg.installdate
        match find_aur_devel_updates_loop local_packages now package_ttl_days rest with
        | none => none
        | some tail =>
          if pkg_age_days ≥ package_ttl_days then
            some (devel_install_info aur_pkg local_pkg pkg_age_days :: tail)
          else
            some tail
    else
      find_aur_devel_updates_loop local_packages now package_ttl_days rest

/-- `updates.find_aur_devel_updates`: iterate the up-to-date AUR packages in
name order. -/
def find_aur_devel_updates (local_packages : List (String × LocalPackage)) (now : Int)
    (aur_pkgs_info : List AURPackageInfo) (package_ttl_days : Int) :
    Option (List AURInstallInfo) :=
  find_aur_devel_updates_loop local_packages now package_ttl_days
    (pySorted (fun a b => pyStrLt a.name b.name) aur_pkgs_info)

/-- The staleness branch at the end of `find_aur_updates` (lines 146-155):
`DevelPkgsExpiration` config, overridden to `0` by the `--devel` flag; a
resulting TTL of `-1` or below disables the devel check. -/
def staleness_path (local_packages : List (String × LocalPackage)) (now : Int)
    (devel_pkgs_expiration_cfg : Int) (devel_flag : Bool)
    (aur_pkgs_up_to_date : List AURPackageInfo) : Option (List AURInstallInfo) :=
  let devel_packages_expiration := if devel_flag then 0 else devel_pkgs_expiration_cfg
  if devel_packages_expiration > -1 then
    find_aur_devel_updates local_packages now aur_pkgs_up_to_date devel_packages_expiration
  else
    some []

/-! ## `updates.py`: `find_aur_updates` -/

/-- The `AURInstallInfo` built by `find_aur_updates` for a strictly-newer
remote package. -/
def aur_update_install_info (aur_pkg : AURPackageInfo) (current_version : String) :
    AURInstallInfo :=
  { name := aur_pkg.name
    new_version := aur_pkg.version
    current_version := current_version
    description := aur_pkg.desc
    maintainer := aur_pkg.maintainer
    package := aur_pkg }

/-- The `for aur_pkg in aur_pkgs_info` loop of `find_aur_updates`.
Returns `(aur_updates, aur_pkgs_up_to_date, outofdate skip notices)`;
the notices model the `print_ignoring_outofdate_upgrade` calls. -/
def find_aur_updates_loop (compare_versions : String → String → Int)
    (local_packages : List (String × LocalPackage)) (ignore_outofdate : Bool) :
    List AURPackageInfo →
    Option (List AURInstallInfo × List AURPackageInfo × List AURInstallInfo)
  | [] => some ([], [], [])
  | aur_pkg :: rest =>
    match dictGet local_packages aur_pkg.name with
    | none => none
    | some local_pkg =>
      match find_aur_updates_loop compare_versions local_packages ignore_outofdate rest with
      | none => none
      | some (aur_updates, aur_pkgs_up_to_date, notices) =>
        let aur_version := aur_pkg.version
        let current_version := local_pkg.version
        let compare_aur_pkg := compare_versions current_version aur_version
        if compare_aur_pkg < 0 then
          let pkg_install_info := aur_update_install_info aur_pkg current_version
          if ignore_outofdate && pyTruthyOptInt aur_pkg.outofdate then
            some (aur_updates, aur_pkgs_up_to_date, pkg_install_info :: notices)
          else
            some (pkg_install_info :: aur_updates, aur_pkgs_up_to_date, notices)
        else
          some (aur_updates, aur_pkg :: aur_pkgs_up_to_date, notices)

/-- Result of `find_aur_updates`: the updates, the not-found names, and the
out-of-date skip notices emitted on stderr along the way. -/
structure FindAURUpdatesResult where
  updates : List AURInstallInfo
  not_found : List String
  outofdate_skip_notices : List AURInstallInfo
deriving Repr, DecidableEq

/-- `updates.find_aur_updates`, with its external collaborators passed in:
`compare_versions`, the local-package dict, the already-fetched AUR records
and not-found names, the `--ignore-outofdate` and `--devel` flags, the
`DevelPkgsExpiration` config value, and the current time. -/
def find_aur_updates (compare_versions : String → String → Int)
    (local_packages : List (String × LocalPackage))
    (aur_pkgs_info : List AURPackageInfo) (not_found_aur_pkgs : List String)
    (ignore_outofdate devel_flag : Bool) (devel_pkgs_expiration_cfg : Int)
    (now : Int) : Option FindAURUpdatesResult :=
  match find_aur_updates_loop compare_versions local_packages ignore_outofdate aur_pkgs_info with
  | none => none
  | some (aur_updates, aur_pkgs_up_to_date, notices) =>
    if aur_pkgs_up_to_date.isEmpty then
      some ⟨aur_updates, not_found_aur_pkgs, notices⟩
    else
      match staleness_path local_packages now devel_pkgs_expiration_cfg devel_flag
          aur_pkgs_up_to_date with
      | none => none
      | some devel_updates =>
        some ⟨aur_updates ++ devel_updates, not_found_aur_pkgs, notices⟩

/-! ## `print_department.py`: records handled by the formatters -/

/-- `core.InstallInfo`, restricted to the fields `print_department.py` reads
for sorting and sectioning (`repository` is `none` for AUR-origin records). -/
structure InstallInfo where
  name : String
  current_version : String := ""
  new_version : String := ""
  repository : Option String := none
deriving Repr, DecidableEq

/-- Python `x or default` for an optional string field
(`None` and `""` are both falsy). -/
def pyOrStr (o : Option String) (default : String) : String :=
  match o with
  | none => default
  | some s => if s = "" then default else s

/-! ## `print_department.py`: upgrade-list sort keys (`pretty_format_upgradeable`) -/

/-- `config.UpgradeSortingValues`: the three `UpgradeSorting` config values. -/
inductive UpgradeSortingValues
  | VERSIONDIFF
  | PKGNAME
  | REPO
deriving Repr, DecidableEq

/-- The `type_sort_key` union of `pretty_format_upgradeable`: an int/str pair,
a bare string, or a str/str pair (one shape per configured mode). -/
inductive SortKey
  | intStr : Int → String → SortKey
  | str : String → SortKey
  | strStr : String → String → SortKey
deriving Repr, DecidableEq

/-- The `sort_by` key computed per record by `pretty_format_upgradeable`
(lines 173-184), parameterized by the external
`version.get_common_version` collaborator whose second component is the
diff weight. -/
def upgrade_sort_key (get_common_version : String → String → String × Int)
    (user_chosen_sorting : UpgradeSortingValues) (pkg_update : InstallInfo) : SortKey :=
  let diff_weight := (get_common_version pkg_update.current_version pkg_update.new_version).2
  match user_chosen_sorting with
  | .VERSIONDIFF => .intStr (-diff_weight) pkg_update.name
  | .PKGNAME => .str pkg_update.name
  | .REPO => .strStr (pyOrStr pkg_update.repository "zzz_(aur)") pkg_update.name

/-- Python `<` on the sort keys (tuple comparison is lexicographic; comparing
keys of different shapes raises `TypeError` in Python and never happens
within one render call, so those cases are mapped to `false`). -/
def sortKeyLt : SortKey → SortKey → Bool
  | .intStr a n, .intStr b m => a < b || (a == b && pyStrLt n m)
  | .str n, .str m => pyStrLt n m
  | .strStr r n, .strStr s m => pyStrLt r s || (r == s && pyStrLt n m)
  | _, _ => false

/-- The final `sorted(..., key=lambda x: x[1])` over the rendered
`(line, sort_by)` pairs of `pretty_format_upgradeable`. -/
def pretty_format_upgradeable_order (get_common_version : String → String → String × Int)
    (user_chosen_sorting : UpgradeSortingValues) (packages_updates : List InstallInfo) :
    List InstallInfo :=
  pySorted
    (fun a b =>
      sortKeyLt (upgrade_sort_key get_common_version user_chosen_sorting a)
        (upgrade_sort_key get_common_version user_chosen_sorting b))
    packages_updates

/-! ## `print_department.py`: column width and spacing (`pretty_format_upgradeable`) -/

/-- `min(int(get_term_width() / 2.5), 37)` (line 171). `int(w / 2.5)` equals
`w * 2 / 5` in `Nat` floor arithmetic: `2.5` is exactly representable and the
float quotient can only differ from the rational `2w/5` by far less than the
distance to the next integer. -/
def column_width_of (term_width : Nat) : Nat :=
  min (term_width * 2 / 5) 37

/-- `len(" " * max(1, column_width - pkg_len))` — the `spacing` field. -/
def spacing_len (column_width pkg_len : Int) : Int :=
  max 1 (column_width - pkg_len)

/-- The `spacing2` field width: `max(1, column_width - 18 -
len(current_version) - max(-1, pkg_len - column_width))`. -/
def spacing2_len (column_width pkg_len current_version_len : Int) : Int :=
  max 1 (column_width - 18 - current_version_len - max (-1) (pkg_len - column_width))

/-- The `spacing3` field width: as `spacing2` with the new version's length,
emitted only when a package size is shown (`if pkg_size else ""`). -/
def spacing3_len (column_width pkg_len new_version_len : Int) (has_pkg_size : Bool) : Int :=
  if has_pkg_size then
    max 1 (column_width - 18 - new_version_len - max (-1) (pkg_len - column_width))
  else 0

/-- The sequence of `column_width` values computed during one
`pretty_format_upgradeable` call: the nested `pretty_format` closure runs once
per record and calls the live `get_term_width()` each time; `term_widths k` is
the value the k-th call observes. -/
def render_column_widths (term_widths : Nat → Nat) (record_count : Nat) : List Nat :=
  (List.range record_count).map (fun call_index => column_width_of (term_widths call_index))

/-! ## `print_department.py`: search-result enumeration (`print_package_search_results`) -/

/-- Lines 726-728: `enumerate` the concatenated sorted package list, then
reverse the `(index, package)` pairs when `ReverseSearchSorting` is set. -/
def search_enumerated_packages (sorted_packages : List α) (reverse_search_sorting : Bool) :
    List (Nat × α) :=
  let enumerated_packages := sorted_packages.enum
  if reverse_search_sorting then enumerated_packages.reverse else enumerated_packages

/-- The 1-based indices printed by the `for pkg_idx, package in
enumerated_packages` loop (`idx = f"{pkg_idx+1}) "`), in print order. -/
def search_printed_indices (sorted_packages : List α) (reverse_search_sorting : Bool) :
    List Nat :=
  (search_enumerated_packages sorted_packages reverse_search_sorting).map
    (fun pair => pair.1 + 1)

/-! ## `print_department.py`: `RepoColorGenerator` -/

/-- Python dict assignment `d[k] = v` on an association list. -/
def dictSetI : List (String × Int) → String → Int → List (String × Int)
  | [], k, v => [(k, v)]
  | kv :: rest, k, v =>
    if kv.1 = k then (k, v) :: rest else kv :: dictSetI rest k v

/-- Lookup in an association list keyed by strings. -/
def dictGetI : List (String × Int) → String → Option Int
  | [], _ => none
  | kv :: rest, k => if kv.1 = k then some kv.2 else dictGetI rest k

/-- Nested-dict assignment for `_cache[color_type][_id] = v`, flattened to a
`(color_type, _id)`-keyed association list. -/
def cacheSet : List ((String × String) × Int) → String → String → Int →
    List ((String × String) × Int)
  | [], t, i, v => [((t, i), v)]
  | kv :: rest, t, i, v =>
    if kv.1 = (t, i) then ((t, i), v) :: rest else kv :: cacheSet rest t i v

/-- `_cache.get(color_type, {}).get(_id)`. -/
def cacheGet : List ((String × String) × Int) → String → String → Option Int
  | [], _, _ => none
  | kv :: rest, t, i => if kv.1 = (t, i) then some kv.2 else cacheGet rest t i

/-- The process-wide mutable class state of `RepoColorGenerator`:
`_type_storage` (per-category counter) and `_cache` (assigned colors). -/
structure RepoColorState where
  type_storage : List (String × Int)
  cache : List ((String × String) × Int)
deriving Repr, DecidableEq

/-- The state before any request (`do_init` itself is only a fixed prefix of
`get_next` requests, so it needs no separate modelling). -/
def repoColorInit : RepoColorState := ⟨[], []⟩

def MAX_COLOR : Int := 15

/-- The cache-miss path of `RepoColorGenerator.get_next`: advance the
per-category counter (reset to 10 when unset, falsy, or at least
`_MAX_COLOR`, else increment) and store the new color in the cache. -/
def get_next_assign (s : RepoColorState) (color_type _id : String) :
    Int × RepoColorState :=
  let counter :=
    match dictGetI s.type_storage color_type with
    | none => 10
    | some v => if v = 0 then 10 else if v ≥ MAX_COLOR then 10 else v + 1
  (counter,
    { type_storage := dictSetI s.type_storage color_type counter
      cache := cacheSet s.cache color_type _id counter })

/-- `RepoColorGenerator.get_next`: return the cached color when the cache
entry is truthy (Python `if cls._cache.get(...).get(...)`), otherwise assign
a fresh one. -/
def get_next (s : RepoColorState) (color_type _id : String) : Int × RepoColorState :=
  match cacheGet s.cache color_type _id with
  | some cached =>
    if cached ≠ 0 then (cached, s)
    else get_next_assign s color_type _id
  | none => get_next_assign s color_type _id

/-- Run a sequence of `get_next` requests (arbitrary call sites, in order),
collecting the returned colors. -/
def runColorRequests (s : RepoColorState) :
    List (String × String) → RepoColorState × List Int
  | [] => (s, [])
  | req :: rest =>
    let step := get_next s req.1 req.2
    let tail := runColorRequests step.2 rest
    (tail.1, step.1 :: tail.2)

/-- Invariant of the color-generator state: every stored counter and cached
color lies in the palette 10..15 (so, in particular, is truthy). -/
def colorInv (s : RepoColorState) : Prop :=
  (∀ kv ∈ s.type_storage, 10 ≤ kv.2 ∧ kv.2 ≤ 15) ∧
  (∀ kv ∈ s.cache, 10 ≤ kv.2 ∧ kv.2 ≤ 15)

/-! ## `print_department.py`: warned packages (`pformat_warned_packages`) -/

/-- Shell-style glob matching as performed by `fnmatch.fnmatch`.
Modelled from the spec: `fnmatch` is a standard-library collaborator
("ordered set of shell-style glob patterns (also accepting bare exact
names)"); the `*`, `?` and literal-character constructs are modelled, which
covers bare names and the patterns the theorems below use. -/
def globMatchList : List Char → List Char → Bool
  | [], s => s.isEmpty
  | '*' :: ps, s => s.tails.any (fun t => globMatchList ps t)
  | '?' :: ps, s =>
    match s with
    | [] => false
    | _ :: rest => globMatchList ps rest
  | p :: ps, s =>
    match s with
    | [] => false
    | c :: rest => p == c && globMatchList ps rest

/-- `fnmatch.fnmatch(name, glob)`. -/
def fnmatch (name glob : String) : Bool := globMatchList glob.data name.data

/-- Python `list.remove(x)`: drop the first occurrence, `ValueError`
(modelled as `none`) when `x` is absent. -/
def pyRemove [DecidableEq α] (x : α) : List α → Option (List α)
  | [] => none
  | y :: ys =>
    if y = x then some ys
    else (pyRemove x ys).map (fun rest => y :: rest)

/-- The inner `for glob in globs_and_names` loop of
`remove_globs_from_pkg_list`, for one package from the iteration copy:
every matching glob removes the package from the live list and appends it to
the warned list — without a `break`. -/
def remove_globs_inner (pkg_install_info : InstallInfo) :
    List String → List InstallInfo → List InstallInfo →
    Option (List InstallInfo × List InstallInfo)
  | [], pkg_list, warned => some (pkg_list, warned)
  | glob :: globs, pkg_list, warned =>
    if fnmatch pkg_install_info.name glob then
      match pyRemove pkg_install_info pkg_list with
      | none => none
      | some pkg_list2 =>
        remove_globs_inner pkg_install_info globs pkg_list2 (warned ++ [pkg_install_info])
    else
      remove_globs_inner pkg_install_info globs pkg_list warned

/-- The outer `for pkg_install_info in pkg_list[::]` loop: iterate a copy of
the bucket while mutating the live bucket and the shared warned list. -/
def remove_globs_outer (globs_and_names : List String) :
    List InstallInfo → List InstallInfo → List InstallInfo →
    Option (List InstallInfo × List InstallInfo)
  | [], pkg_list, warned => some (pkg_list, warned)
  | pkg :: copy_rest, pkg_list, warned =>
    match remove_globs_inner pkg globs_and_names pkg_list warned with
    | none => none
    | some (pkg_list2, warned2) => remove_globs_outer globs_and_names copy_rest pkg_list2 warned2

/-- `remove_globs_from_pkg_list(pkg_list)` for one bucket, threading the
shared `warn_about_packages_list`. -/
def remove_globs_from_pkg_list (globs_and_names : List String)
    (pkg_list warned : List InstallInfo) :
    Option (List InstallInfo × List InstallInfo) :=
  remove_globs_outer globs_and_names pkg_list pkg_list warned

/-- The eight bucket lists held by `SysupgradePrettyFormatter`, in the order
of `all_install_info_lists`. -/
structure Buckets where
  repo_packages_updates : List InstallInfo := []
  thirdparty_repo_packages_updates : List InstallInfo := []
  aur_updates : List InstallInfo := []
  repo_replacements : List InstallInfo := []
  thirdparty_repo_replacements : List InstallInfo := []
  new_repo_deps : List InstallInfo := []
  new_thirdparty_repo_deps : List InstallInfo := []
  new_aur_deps : List InstallInfo := []
deriving Repr, DecidableEq

/-- The bucket-filtering phase of `pformat_warned_packages`: apply
`remove_globs_from_pkg_list` to each of the eight bucket lists in
`all_install_info_lists` order, threading the shared warned list. -/
def pformat_warned_filter (globs_and_names : List String) (b : Buckets) :
    Option (Buckets × List InstallInfo) :=
  match remove_globs_from_pkg_list globs_and_names b.repo_packages_updates [] with
  | none => none
  | some (l1, w1) =>
  match remove_globs_from_pkg_list globs_and_names b.thirdparty_repo_packages_updates w1 with
  | none => none
  | some (l2, w2) =>
  match remove_globs_from_pkg_list globs_and_names b.aur_updates w2 with
  | none => none
  | some (l3, w3) =>
  match remove_globs_from_pkg_list globs_and_names b.repo_replacements w3 with
  | none => none
  | some (l4, w4) =>
  match remove_globs_from_pkg_list globs_and_names b.thirdparty_repo_replacements w4 with
  | none => none
  | some (l5, w5) =>
  match remove_globs_from_pkg_list globs_and_names b.new_repo_deps w5 with
  | none => none
  | some (l6, w6) =>
  match remove_globs_from_pkg_list globs_and_names b.new_thirdparty_repo_deps w6 with
  | none => none
  | some (l7, w7) =>
  match remove_globs_from_pkg_list globs_and_names b.new_aur_deps w7 with
  | none => none
  | some (l8, w8) =>
    some ({ repo_packages_updates := l1
            thirdparty_repo_packages_updates := l2
            aur_updates := l3
            repo_replacements := l4
            thirdparty_repo_replacements := l5
            new_repo_deps := l6
            new_thirdparty_repo_deps := l7
            new_aur_deps := l8 }, w8)

/-! ## `print_department.py`: replacement-section headers (`pformat_replacements`) -/

/-- `i18n.translate_many`: the external pluralizer picks the singular template
exactly for quantity one (English plural rule). -/
def translate_many (single plural : String) (num : Nat) : String :=
  if num = 1 then single else plural

def repo_replacements_single : String :=
  "Repository package suggested as a replacement:"

def repo_replacements_plural : String :=
  "Repository packages suggested as a replacement:"

def thirdparty_replacements_single : String :=
  "Third-party repository package suggested as a replacement:"

def thirdparty_replacements_plural : String :=
  "Third-party repository packages suggested as a replacement:"

/-- The header emitted by the first block of `pformat_replacements`
(pluralized over `len(self.repo_replacements)`). -/
def pformat_repo_replacements_header (b : Buckets) : Option String :=
  if b.repo_replacements.isEmpty then none
  else
    some (translate_many repo_replacements_single repo_replacements_plural
      b.repo_replacements.length)

/-- The header emitted by the second block of `pformat_replacements`: the
source pluralizes it over `len(self.repo_packages_updates)` (line 460), not
over the third-party replacement records listed beneath it. -/
def pformat_thirdparty_replacements_header (b : Buckets) : Option String :=
  if b.thirdparty_repo_replacements.isEmpty then none
  else
    some (translate_many thirdparty_replacements_single thirdparty_replacements_plural
      b.repo_packages_updates.length)

/-! ## Concrete inputs used by the witnesses and counterexamples -/

/-- A concrete `compare_versions` collaborator honouring the external
contract (`0` exactly on equal version strings, negative when the first
argument is lexicographically smaller). -/
def exCompareVersions : String → String → Int :=
  fun a b => if a = b then 0 else if pyStrLt a b then -1 else 1

def exDevelPkg : AURPackageInfo := { name := "foo-git", version := "1.0" }

def exDevelLocal : LocalPackage := { version := "1.0", installdate := 0 }

def exDevelLocals : List (String × LocalPackage) := [("foo-git", exDevelLocal)]

/-- Ten whole days after the epoch-time install of `exDevelLocal`. -/
def exNow : Int := 10 * 86400

def exOutofdatePkg : AURPackageInfo :=
  { name := "bar", version := "2.0", outofdate := some 1700000000 }

def exOutofdateLocals : List (String × LocalPackage) := [("bar", { version := "1.0" })]

def exAURRecord : InstallInfo := { name := "aaa" }

def exZzzzRepoRecord : InstallInfo := { name := "bbb", repository := some "zzzz" }

def exCoreRepoRecord : InstallInfo := { name := "ccc", repository := some "core" }

/-- A `get_common_version` collaborator stub (the repo-grouped ordering never
reads it). -/
def exGetCommonVersion : String → String → String × Int := fun _ _ => ("", 0)

/-- A terminal-width stream that changes between the first and second
`get_term_width()` call of one render. -/
def exTermWidths : Nat → Nat := fun call_index => if call_index = 0 then 100 else 50

def exWarnRecord : InstallInfo := { name := "foo-git" }

def exWarnBuckets : Buckets := { aur_updates := [exWarnRecord] }

/-- Seven distinct repositories followed by a repeat of the first, all in the
`"repo"` category. -/
def exColorReqs : List (String × String) :=
  [("repo", "core"), ("repo", "extra"), ("repo", "community"), ("repo", "multilib"),
   ("repo", "a"), ("repo", "b"), ("repo", "c"), ("repo", "core")]

def exColorReqsSmall : List (String × String) :=
  [("repo", "core"), ("repo", "x"), ("repo", "core")]

/-! ## Helper lemmas -/

theorem listPrefixOf_iff (a b : List Char) : listPrefixOf a b = true ↔ a <+: b := by
  induction a generalizing b with
  | nil => simp [listPrefixOf]
  | cons x xs ih =>
    cases b with
    | nil => simp [listPrefixOf]
    | cons y ys => simp [listPrefixOf, List.cons_prefix_cons, ih, and_comm]

theorem pyEndsWith_iff (s suffix : String) :
    pyEndsWith s suffix = true ↔ suffix.data <:+ s.data := by
  rw [pyEndsWith, listPrefixOf_iff, List.reverse_prefix]

/-! ## Claim C8 -/

/-- Claim C8: for every package name, `is_devel_pkg` returns true if and only
if the name ends with one of the fixed suffixes
`-git`, `-svn`, `-bzr`, `-hg`, `-cvs`, `-nightly`. -/
theorem C8_is_devel_pkg_iff (pkg_name : String) :
    is_devel_pkg pkg_name = true ↔
      ∃ suffix ∈ DEVEL_PKGS_POSTFIXES, suffix.data <:+ pkg_name.data := by
  rw [is_devel_pkg, List.any_eq_true]
  constructor
  · rintro ⟨suffix, hmem, hsuf⟩
    exact ⟨suffix, hmem, (pyEndsWith_iff pkg_name suffix).1 hsuf⟩
  · rintro ⟨suffix, hmem, hsuf⟩
    exact ⟨suffix, hmem, (pyEndsWith_iff pkg_name suffix).2 hsuf⟩

/-! ## Claim C1 -/

/-- Claim C1 counterexample: with the reverse flag set, a two-element search
result prints enumeration indices `2) …` then `1) …` — not a contiguous
ascending run starting at 1 over the printed sequence, because the code
enumerates before reversing. -/
theorem C1_counterexample :
    search_printed_indices ["pkg-a", "pkg-b"] true = [2, 1] ∧
      search_printed_indices ["pkg-a", "pkg-b"] true ≠ [1, 2] := by
  decide

/-- Claim C1 as amended: enumeration indices are assigned after sorting but
before the reverse flag is applied, so the printed indices are the ascending
run 1..n without the reverse flag, and exactly that run reversed (descending
n..1, each record keeping its pre-reversal index) with it. -/
theorem C1_amended {α : Type} (sorted_packages : List α) :
    search_printed_indices sorted_packages false =
      List.range' 1 sorted_packages.length ∧
    search_printed_indices sorted_packages true =
      (List.range' 1 sorted_packages.length).reverse := by
  have general : ∀ (l : List α) (n : Nat),
      ((List.enumFrom n l).map fun pair => pair.1 + 1) = List.range' (n + 1) l.length := by
    intro l
    induction l with
    | nil => intro n; simp
    | cons x xs ih =>
      intro n
      simp only [List.enumFrom, List.map_cons, List.length_cons, List.range'_succ]
      exact congrArg (fun t => (n + 1) :: t) (ih (n + 1))
  have base :
      (sorted_packages.enum.map fun pair => pair.1 + 1) =
        List.range' 1 sorted_packages.length := by
    simpa [List.enum] using general sorted_packages 0
  refine ⟨?_, ?_⟩
  · simpa [search_printed_indices, search_enumerated_packages] using base
  · simp only [search_printed_indices, search_enumerated_packages, if_pos,
      List.map_reverse]
    rw [base]

/-! ## Claim C10 -/

/-- Claim C10: the third-party replacements header is pluralized over the
count of official repository package updates (`repo_packages_updates`), not
over the third-party replacement records listed under it, so whenever one of
those counts is 1 and the other exceeds 1 the header's plurality disagrees
with the listed records. -/
theorem C10_thirdparty_replacements_header (b : Buckets)
    (hne : b.thirdparty_repo_replacements ≠ []) :
    pformat_thirdparty_replacements_header b =
      some (translate_many thirdparty_replacements_single
        thirdparty_replacements_plural b.repo_packages_updates.length) ∧
    (b.repo_packages_updates.length = 1 → 1 < b.thirdparty_repo_replacements.length →
      pformat_thirdparty_replacements_header b = some thirdparty_replacements_single) ∧
    (1 < b.repo_packages_updates.length → b.thirdparty_repo_replacements.length = 1 →
      pformat_thirdparty_replacements_header b = some thirdparty_replacements_plural) := by
  have hempty : b.thirdparty_repo_replacements.isEmpty = false := by
    cases h : b.thirdparty_repo_replacements with
    | nil => exact absurd h hne
    | cons x xs => simp [List.isEmpty]
  refine ⟨?_, ?_, ?_⟩
  · simp [pformat_thirdparty_replacements_header, hempty]
  · intro h1 _
    simp [pformat_thirdparty_replacements_header, hempty, translate_many, h1]
  · intro h1 _
    have : b.repo_packages_updates.length ≠ 1 := by omega
    simp [pformat_thirdparty_replacements_header, hempty, translate_many, this]

/-- Witness for claim C10, at a bucket set with one official repo update and
two third-party replacements: the header comes out singular although two
records are listed beneath it. -/
theorem C10_thirdparty_replacements_header_witness :
    pformat_thirdparty_replacements_header
        { repo_packages_updates := [exCoreRepoRecord]
          thirdparty_repo_replacements := [exAURRecord, exZzzzRepoRecord] } =
      some thirdparty_replacements_single :=
  (C10_thirdparty_replacements_header
      { repo_packages_updates := [exCoreRepoRecord]
        thirdparty_repo_replacements := [exAURRecord, exZzzzRepoRecord] }
      (by decide)).2.1 (by decide) (by decide)

/-! ## Claim C2 -/

/-- Claim C2, evaluated at the failing input: the warned-packages filter has
no `break` after a glob matches, so a record whose name matches two of the
configured patterns is removed from its bucket twice — the second
`list.remove` raises `ValueError` (modelled as `none`) instead of moving the
record exactly once. With a single matching pattern the filter does behave as
the claim states: the record moves to the warned list, leaves its bucket, and
a second pass with the same patterns is a no-op. -/
theorem C2_warned_filter_eval :
    pformat_warned_filter ["foo-*", "*-git"] exWarnBuckets = none ∧
    pformat_warned_filter ["foo-*"] exWarnBuckets =
      some ({ aur_updates := [] }, [exWarnRecord]) ∧
    pformat_warned_filter ["foo-*"] ({ aur_updates := [] } : Buckets) =
      some ({ aur_updates := [] }, []) := by
  decide

/-! ## Claim C6 -/

/-- Claim C6 counterexample: `column_width` is computed inside the per-record
`pretty_format` closure, so two records rendered in the same
`pretty_format_upgradeable` call observe the live terminal width at two
different moments — here widths 100 then 50 give column widths 37 and 20
within one render call, refuting "recomputed once per render call (not once
per record)". -/
theorem C6_counterexample :
    render_column_widths exTermWidths 2 = [37, 20] ∧ (37 : Nat) ≠ 20 := by
  decide

/-- Claim C6 as amended: every emitted padding width is at least 1 (the first
equals `max(1, column_width - pkg_len)`; the second and third subtract the
fixed offset 18, the version length, and the overflow correction
`max(-1, pkg_len - column_width)`); the third is emitted only alongside a
package size; and `column_width = min(int(term_width / 2.5), 37)` is
recomputed per record from the live terminal width, each record observing the
width at its own `get_term_width()` call. -/
theorem C6_amended :
    (∀ column_width pkg_len : Int, 1 ≤ spacing_len column_width pkg_len) ∧
    (∀ column_width pkg_len current_version_len : Int,
      1 ≤ spacing2_len column_width pkg_len current_version_len) ∧
    (∀ column_width pkg_len new_version_len : Int,
      1 ≤ spacing3_len column_width pkg_len new_version_len true) ∧
    (∀ column_width pkg_len new_version_len : Int,
      spacing3_len column_width pkg_len new_version_len false = 0) ∧
    (∀ (term_widths : Nat → Nat) (record_count call_index : Nat),
      call_index < record_count →
      (render_column_widths term_widths record_count).get? call_index =
        some (min (term_widths call_index * 2 / 5) 37)) := by
  refine ⟨?_, ?_, ?_, ?_, ?_⟩
  · intro cw pl; exact le_max_left 1 _
  · intro cw pl cvl; exact le_max_left 1 _
  · intro cw pl nvl; simp only [spacing3_len, if_pos]; exact le_max_left 1 _
  · intro cw pl nvl; simp [spacing3_len]
  · intro tw n i hi
    simp only [render_column_widths, column_width_of, List.get?_eq_getElem?,
      List.getElem?_map, List.getElem?_range hi, Option.map]

/-- Witness for claim C6, at column width 20, an overlong 50-character name,
version length 30: all paddings still come out at least 1, and the second
record of the counterexample render observes column width 20. -/
theorem C6_amended_witness :
    (1 ≤ spacing_len 20 50 ∧ 1 ≤ spacing2_len 20 50 30 ∧
      1 ≤ spacing3_len 20 50 30 true ∧ spacing3_len 20 50 30 false = 0) ∧
    (render_column_widths exTermWidths 2).get? 1 = some (min (50 * 2 / 5) 37) :=
  ⟨⟨C6_amended.1 20 50, C6_amended.2.1 20 50 30, C6_amended.2.2.1 20 50 30,
      C6_amended.2.2.2.1 20 50 30⟩,
    C6_amended.2.2.2.2 exTermWidths 2 1 (by decide)⟩

/-! ## Claim C5 -/

theorem pyStrListLt_asymm {a b : List Char} (h : pyStrListLt a b = true) :
    pyStrListLt b a = false := by
  induction a generalizing b with
  | nil =>
    cases b with
    | nil => simp [pyStrListLt] at h
    | cons y ys => simp [pyStrListLt]
  | cons x xs ih =>
    cases b with
    | nil => simp [pyStrListLt] at h
    | cons y ys =>
      by_cases hxy : x.toNat < y.toNat
      · have hyx : ¬ y.toNat < x.toNat := by omega
        simp [pyStrListLt, hxy, hyx]
      · by_cases hyx : y.toNat < x.toNat
        · simp [pyStrListLt, hxy, hyx] at h
        · simp only [pyStrListLt, if_neg hxy, if_neg hyx] at h
          simp [pyStrListLt, hxy, hyx, ih h]

theorem pyStrListLt_irrefl (a : List Char) : pyStrListLt a a = false := by
  induction a with
  | nil => simp [pyStrListLt]
  | cons x xs ih => simp [pyStrListLt, ih]

theorem pyStrLt_asymm {a b : String} (h : pyStrLt a b = true) : pyStrLt b a = false :=
  pyStrListLt_asymm h

theorem pyStrLt_ne {a b : String} (h : pyStrLt a b = true) : a ≠ b := by
  intro heq
  rw [heq, pyStrLt, pyStrListLt_irrefl] at h
  exact Bool.false_ne_true h

/-- Claim C5 counterexample: under the repo-grouped mode an AUR-origin record
(key sentinel `"zzz_(aur)"`) sorts *before* a record from a repository named
`"zzzz"`, because `"zzz_(aur)" < "zzzz"` lexicographically — so not every
AUR-origin record sorts after every record from a named repository. -/
theorem C5_counterexample :
    sortKeyLt (upgrade_sort_key exGetCommonVersion .REPO exAURRecord)
        (upgrade_sort_key exGetCommonVersion .REPO exZzzzRepoRecord) = true ∧
    pretty_format_upgradeable_order exGetCommonVersion .REPO
        [exZzzzRepoRecord, exAURRecord] = [exAURRecord, exZzzzRepoRecord] := by
  decide

/-- Claim C5 as amended: the default mode sorts by
`(-diff_weight, name)`, the name mode by the bare name, and the repo-grouped
mode by `(repository-or-"zzz_(aur)"-sentinel, name)`; in the repo-grouped
mode every AUR-origin record sorts strictly after every record from a
repository whose name is lexicographically below the sentinel `"zzz_(aur)"`
(which covers all official repositories; a repository name above the sentinel
would sort after AUR). -/
theorem C5_amended :
    (∀ (gcv : String → String → String × Int) (pkg : InstallInfo),
      upgrade_sort_key gcv .VERSIONDIFF pkg =
        .intStr (-(gcv pkg.current_version pkg.new_version).2) pkg.name) ∧
    (∀ (gcv : String → String → String × Int) (pkg : InstallInfo),
      upgrade_sort_key gcv .PKGNAME pkg = .str pkg.name) ∧
    (∀ (gcv : String → String → String × Int) (pkg : InstallInfo) (repo_name : String),
      pkg.repository = some repo_name → repo_name ≠ "" →
      upgrade_sort_key gcv .REPO pkg = .strStr repo_name pkg.name) ∧
    (∀ (gcv : String → String → String × Int) (pkg : InstallInfo),
      pkg.repository = none →
      upgrade_sort_key gcv .REPO pkg = .strStr "zzz_(aur)" pkg.name) ∧
    (∀ (gcv : String → String → String × Int) (aur_rec repo_rec : InstallInfo)
      (repo_name : String),
      aur_rec.repository = none → repo_rec.repository = some repo_name →
      repo_name ≠ "" → pyStrLt repo_name "zzz_(aur)" = true →
      sortKeyLt (upgrade_sort_key gcv .REPO repo_rec)
          (upgrade_sort_key gcv .REPO aur_rec) = true ∧
      sortKeyLt (upgrade_sort_key gcv .REPO aur_rec)
          (upgrade_sort_key gcv .REPO repo_rec) = false) := by
  refine ⟨?_, ?_, ?_, ?_, ?_⟩
  · intro gcv pkg; rfl
  · intro gcv pkg; rfl
  · intro gcv pkg repo_name hrepo hne
    simp [upgrade_sort_key, pyOrStr, hrepo, hne]
  · intro gcv pkg hrepo
    simp [upgrade_sort_key, pyOrStr, hrepo]
  · intro gcv aur_rec repo_rec repo_name haur hrepo hne hlt
    have hne2 : repo_name ≠ "zzz_(aur)" := pyStrLt_ne hlt
    have hbeq : (repo_name == "zzz_(aur)") = false := beq_eq_false_iff_ne.2 hne2
    have hbeq2 : ("zzz_(aur)" == repo_name) = false :=
      beq_eq_false_iff_ne.2 (Ne.symm hne2)
    constructor
    · simp [upgrade_sort_key, pyOrStr, haur, hrepo, hne, sortKeyLt, hlt]
    · simp [upgrade_sort_key, pyOrStr, haur, hrepo, hne, sortKeyLt,
        pyStrLt_asymm hlt, hbeq2]

/-- Witness for claim C5, at an AUR record and a record from the repository
`"core"`: the repo record sorts strictly before the AUR record under the
repo-grouped mode. -/
theorem C5_amended_witness :
    sortKeyLt (upgrade_sort_key exGetCommonVersion .REPO exCoreRepoRecord)
        (upgrade_sort_key exGetCommonVersion .REPO exAURRecord) = true ∧
    sortKeyLt (upgrade_sort_key exGetCommonVersion .REPO exAURRecord)
        (upgrade_sort_key exGetCommonVersion .REPO exCoreRepoRecord) = false :=
  C5_amended.2.2.2.2 exGetCommonVersion exAURRecord exCoreRepoRecord "core"
    (by decide) (by decide) (by decide) (by decide)

/-! ## Claim C4 -/

theorem mem_insertStable (lt : α → α → Bool) (x a : α) (l : List α) :
    a ∈ insertStable lt x l ↔ a = x ∨ a ∈ l := by
  induction l with
  | nil => simp [insertStable]
  | cons y ys ih =>
    by_cases h : lt x y = true
    · simp [insertStable, h]
    · simp only [insertStable, if_neg h, List.mem_cons, ih]
      tauto

theorem mem_pySorted (lt : α → α → Bool) (a : α) (xs : List α) :
    a ∈ pySorted lt xs ↔ a ∈ xs := by
  have general : ∀ (ys : List α) (acc : List α),
      a ∈ ys.foldl (fun acc x => insertStable lt x acc) acc ↔ a ∈ acc ∨ a ∈ ys := by
    intro ys
    induction ys with
    | nil => simp
    | cons y ys ih =>
      intro acc
      simp only [List.foldl_cons, ih, mem_insertStable, List.mem_cons]
      tauto
  simpa using general xs []

theorem devel_loop_mem (local_packages : List (String × LocalPackage))
    (now package_ttl_days : Int) (pkgs : List AURPackageInfo)
    (l : List AURInstallInfo)
    (h : find_aur_devel_updates_loop local_packages now package_ttl_days pkgs = some l)
    (r : AURInstallInfo) :
    r ∈ l ↔ ∃ pkg ∈ pkgs, is_devel_pkg pkg.name = true ∧
      ∃ lp, dictGet local_packages pkg.name = some lp ∧
        pkgAgeDays now lp.installdate ≥ package_ttl_days ∧
        r = devel_install_info pkg lp (pkgAgeDays now lp.installdate) := by
  induction pkgs generalizing l with
  | nil =>
    simp only [find_aur_devel_updates_loop, Option.some.injEq] at h
    simp [← h]
  | cons pkg rest ih =>
    by_cases hd : is_devel_pkg pkg.name = true
    · simp only [find_aur_devel_updates_loop, if_pos hd] at h
      cases hlp : dictGet local_packages pkg.name with
      | none => rw [hlp] at h; exact absurd h (by simp)
      | some lp =>
        rw [hlp] at h
        cases hrec : find_aur_devel_updates_loop local_packages now package_ttl_days rest with
        | none => rw [hrec] at h; exact absurd h (by simp)
        | some tail =>
          rw [hrec] at h
          by_cases hage : pkgAgeDays now lp.installdate ≥ package_ttl_days
          · simp only [if_pos hage, Option.some.injEq] at h
            subst h
            constructor
            · intro hr
              rcases List.mem_cons.1 hr with hr | hr
              · exact ⟨pkg, List.mem_cons_self pkg rest, hd, lp, hlp, hage, hr⟩
              · obtain ⟨pkg2, hmem2, hrest⟩ := (ih tail hrec).1 hr
                exact ⟨pkg2, List.mem_cons_of_mem pkg hmem2, hrest⟩
            · rintro ⟨pkg2, hmem2, hdev2, lp2, hlp2, hage2, hr⟩
              rcases List.mem_cons.1 hmem2 with heq | hmem2
              · subst heq
                rw [hlp] at hlp2
                cases hlp2
                exact List.mem_cons.2 (Or.inl hr)
              · exact List.mem_cons.2 (Or.inr ((ih tail hrec).2
                  ⟨pkg2, hmem2, hdev2, lp2, hlp2, hage2, hr⟩))
          · simp only [if_neg hage, Option.some.injEq] at h
            subst h
            constructor
            · intro hr
              obtain ⟨pkg2, hmem2, hrest⟩ := (ih tail hrec).1 hr
              exact ⟨pkg2, List.mem_cons_of_mem pkg hmem2, hrest⟩
            · rintro ⟨pkg2, hmem2, hdev2, lp2, hlp2, hage2, hr⟩
              rcases List.mem_cons.1 hmem2 with heq | hmem2
              · subst heq
                rw [hlp] at hlp2
                cases hlp2
                exact absurd hage2 hage
              · exact (ih tail hrec).2 ⟨pkg2, hmem2, hdev2, lp2, hlp2, hage2, hr⟩
    · simp only [find_aur_devel_updates_loop, if_neg hd] at h
      constructor
      · intro hr
        obtain ⟨pkg2, hmem2, hrest⟩ := (ih l h).1 hr
        exact ⟨pkg2, List.mem_cons_of_mem pkg hmem2, hrest⟩
      · rintro ⟨pkg2, hmem2, hdev2, hrest⟩
        rcases List.mem_cons.1 hmem2 with heq | hmem2
        · subst heq
          exact absurd hdev2 hd
        · exact (ih l h).2 ⟨pkg2, hmem2, hdev2, hrest⟩

theorem find_aur_devel_updates_mem (local_packages : List (String × LocalPackage))
    (now : Int) (aur_pkgs_info : List AURPackageInfo) (package_ttl_days : Int)
    (l : List AURInstallInfo)
    (h : find_aur_devel_updates local_packages now aur_pkgs_info package_ttl_days = some l)
    (r : AURInstallInfo) :
    r ∈ l ↔ ∃ pkg ∈ aur_pkgs_info, is_devel_pkg pkg.name = true ∧
      ∃ lp, dictGet local_packages pkg.name = some lp ∧
        pkgAgeDays now lp.installdate ≥ package_ttl_days ∧
        r = devel_install_info pkg lp (pkgAgeDays now lp.installdate) := by
  rw [devel_loop_mem _ _ _ _ _ h r]
  constructor
  · rintro ⟨pkg, hmem, rest⟩
    exact ⟨pkg, (mem_pySorted _ pkg aur_pkgs_info).1 hmem, rest⟩
  · rintro ⟨pkg, hmem, rest⟩
    exact ⟨pkg, (mem_pySorted _ pkg aur_pkgs_info).2 hmem, rest⟩

/-- Claim C4: for an up-to-date devel package the staleness path synthesizes
a record with `new_version = "devel"` and the whole-day install age, exactly
when that age reaches the effective TTL (`DevelPkgsExpiration`, forced to 0
by `--devel`); a TTL below zero disables the staleness path entirely.
Concretely, `foo-git` installed 10 days ago with `ttl_days = 5` yields the
`"devel"` record with age 10, and the same package with `ttl_days = -1`
yields no record. -/
theorem C4_staleness_path :
    (∀ (local_packages : List (String × LocalPackage))
      (now devel_pkgs_expiration_cfg : Int) (devel_flag : Bool)
      (aur_pkgs_up_to_date : List AURPackageInfo) (l : List AURInstallInfo),
      staleness_path local_packages now devel_pkgs_expiration_cfg devel_flag
          aur_pkgs_up_to_date = some l →
      ∀ r, r ∈ l ↔
        ((if devel_flag then 0 else devel_pkgs_expiration_cfg) > -1 ∧
          ∃ pkg ∈ aur_pkgs_up_to_date, is_devel_pkg pkg.name = true ∧
            ∃ lp, dictGet local_packages pkg.name = some lp ∧
              pkgAgeDays now lp.installdate ≥
                (if devel_flag then 0 else devel_pkgs_expiration_cfg) ∧
              r = devel_install_info pkg lp (pkgAgeDays now lp.installdate))) ∧
    (∀ pkg lp d, (devel_install_info pkg lp d).new_version = "devel" ∧
      (devel_install_info pkg lp d).devel_pkg_age_days = some d) ∧
    staleness_path exDevelLocals exNow 5 false [exDevelPkg] =
      some [devel_install_info exDevelPkg exDevelLocal 10] ∧
    staleness_path exDevelLocals exNow (-1) false [exDevelPkg] = some [] := by
  refine ⟨?_, ?_, by decide, by decide⟩
  · intro local_packages now cfg flag pkgs l h r
    by_cases httl : (if flag then 0 else cfg) > -1
    · simp only [staleness_path, if_pos httl] at h
      rw [find_aur_devel_updates_mem _ _ _ _ _ h r]
      simp [httl]
    · simp only [staleness_path, if_neg httl, Option.some.injEq] at h
      subst h
      simp [httl]
  · intro pkg lp d
    exact ⟨rfl, rfl⟩

/-- Witness for claim C4: instantiating the membership characterization at
the concrete `foo-git` input (installed 10 days ago, TTL 5). -/
theorem C4_staleness_path_witness :
    devel_install_info exDevelPkg exDevelLocal 10 ∈
        [devel_install_info exDevelPkg exDevelLocal 10] ↔
      ((if false then 0 else (5 : Int)) > -1 ∧
        ∃ pkg ∈ [exDevelPkg], is_devel_pkg pkg.name = true ∧
          ∃ lp, dictGet exDevelLocals pkg.name = some lp ∧
            pkgAgeDays exNow lp.installdate ≥ (if false then 0 else (5 : Int)) ∧
            devel_install_info exDevelPkg exDevelLocal 10 =
              devel_install_info pkg lp (pkgAgeDays exNow lp.installdate)) :=
  C4_staleness_path.1 exDevelLocals exNow 5 false [exDevelPkg]
    [devel_install_info exDevelPkg exDevelLocal 10] (by decide)
    (devel_install_info exDevelPkg exDevelLocal 10)

/-! ## Claims C3 and C7: characterizing `find_aur_updates_loop` -/

theorem aur_loop_spec (compare_versions : String → String → Int)
    (local_packages : List (String × LocalPackage)) (ignore_outofdate : Bool)
    (pkgs : List AURPackageInfo) (upd : List AURInstallInfo)
    (utd : List AURPackageInfo) (nts : List AURInstallInfo)
    (h : find_aur_updates_loop compare_versions local_packages ignore_outofdate pkgs =
      some (upd, utd, nts)) :
    (∀ r, r ∈ upd ↔ ∃ pkg ∈ pkgs, ∃ lp, dictGet local_packages pkg.name = some lp ∧
      compare_versions lp.version pkg.version < 0 ∧
      (ignore_outofdate && pyTruthyOptInt pkg.outofdate) = false ∧
      r = aur_update_install_info pkg lp.version) ∧
    (∀ r, r ∈ nts ↔ ∃ pkg ∈ pkgs, ∃ lp, dictGet local_packages pkg.name = some lp ∧
      compare_versions lp.version pkg.version < 0 ∧
      (ignore_outofdate && pyTruthyOptInt pkg.outofdate) = true ∧
      r = aur_update_install_info pkg lp.version) ∧
    (∀ q, q ∈ utd → q ∈ pkgs ∧ ∃ lq, dictGet local_packages q.name = some lq ∧
      ¬ compare_versions lq.version q.version < 0) := by
  induction pkgs generalizing upd utd nts with
  | nil =>
    simp only [find_aur_updates_loop, Option.some.injEq, Prod.mk.injEq] at h
    obtain ⟨h1, h2, h3⟩ := h
    subst h1; subst h2; subst h3
    simp
  | cons pkg rest ih =>
    simp only [find_aur_updates_loop] at h
    cases hlp : dictGet local_packages pkg.name with
    | none => rw [hlp] at h; exact absurd h (by simp)
    | some lp =>
      rw [hlp] at h
      cases hrec : find_aur_updates_loop compare_versions local_packages
          ignore_outofdate rest with
      | none => rw [hrec] at h; exact absurd h (by simp)
      | some triple =>
        obtain ⟨upd0, utd0, nts0⟩ := triple
        rw [hrec] at h
        obtain ⟨ihU, ihN, ihT⟩ := ih upd0 utd0 nts0 hrec
        by_cases hc : compare_versions lp.version pkg.version < 0
        · by_cases hskip : (ignore_outofdate && pyTruthyOptInt pkg.outofdate) = true
          · simp only [if_pos hc, hskip, if_true, Option.some.injEq, Prod.mk.injEq] at h
            obtain ⟨h1, h2, h3⟩ := h
            subst h1; subst h2; subst h3
            refine ⟨?_, ?_, ?_⟩
            · intro r
              rw [ihU r]
              constructor
              · rintro ⟨pkg2, hmem2, hrest⟩
                exact ⟨pkg2, List.mem_cons_of_mem pkg hmem2, hrest⟩
              · rintro ⟨pkg2, hmem2, lp2, hlp2, hc2, hsk2, hr2⟩
                rcases List.mem_cons.1 hmem2 with heq | hmem2
                · subst heq
                  rw [hskip] at hsk2
                  exact absurd hsk2 (by simp)
                · exact ⟨pkg2, hmem2, lp2, hlp2, hc2, hsk2, hr2⟩
            · intro r
              constructor
              · intro hr
                rcases List.mem_cons.1 hr with hr | hr
                · exact ⟨pkg, List.mem_cons_self pkg rest, lp, hlp, hc, hskip, hr⟩
                · obtain ⟨pkg2, hmem2, hrest⟩ := (ihN r).1 hr
                  exact ⟨pkg2, List.mem_cons_of_mem pkg hmem2, hrest⟩
              · rintro ⟨pkg2, hmem2, lp2, hlp2, hc2, hsk2, hr2⟩
                rcases List.mem_cons.1 hmem2 with heq | hmem2
                · subst heq
                  rw [hlp] at hlp2
                  cases hlp2
                  exact List.mem_cons.2 (Or.inl hr2)
                · exact List.mem_cons.2
                    (Or.inr ((ihN r).2 ⟨pkg2, hmem2, lp2, hlp2, hc2, hsk2, hr2⟩))
            · intro q hq
              obtain ⟨hmem2, hrest⟩ := ihT q hq
              exact ⟨List.mem_cons_of_mem pkg hmem2, hrest⟩
          · have hskipf : (ignore_outofdate && pyTruthyOptInt pkg.outofdate) = false := by
              revert hskip
              cases ignore_outofdate && pyTruthyOptInt pkg.outofdate <;> simp
            simp only [if_pos hc, hskipf, Bool.false_eq_true, if_false,
              Option.some.injEq, Prod.mk.injEq] at h
            obtain ⟨h1, h2, h3⟩ := h
            subst h1; subst h2; subst h3
            refine ⟨?_, ?_, ?_⟩
            · intro r
              constructor
              · intro hr
                rcases List.mem_cons.1 hr with hr | hr
                · exact ⟨pkg, List.mem_cons_self pkg rest, lp, hlp, hc, hskipf, hr⟩
                · obtain ⟨pkg2, hmem2, hrest⟩ := (ihU r).1 hr
                  exact ⟨pkg2, List.mem_cons_of_mem pkg hmem2, hrest⟩
              · rintro ⟨pkg2, hmem2, lp2, hlp2, hc2, hsk2, hr2⟩
                rcases List.mem_cons.1 hmem2 with heq | hmem2
                · subst heq
                  rw [hlp] at hlp2
                  cases hlp2
                  exact List.mem_cons.2 (Or.inl hr2)
                · exact List.mem_cons.2
                    (Or.inr ((ihU r).2 ⟨pkg2, hmem2, lp2, hlp2, hc2, hsk2, hr2⟩))
            · intro r
              rw [ihN r]
              constructor
              · rintro ⟨pkg2, hmem2, hrest⟩
                exact ⟨pkg2, List.mem_cons_of_mem pkg hmem2, hrest⟩
              · rintro ⟨pkg2, hmem2, lp2, hlp2, hc2, hsk2, hr2⟩
                rcases List.mem_cons.1 hmem2 with heq | hmem2
                · subst heq
                  rw [hskipf] at hsk2
                  exact absurd hsk2 (by simp)
                · exact ⟨pkg2, hmem2, lp2, hlp2, hc2, hsk2, hr2⟩
            · intro q hq
              obtain ⟨hmem2, hrest⟩ := ihT q hq
              exact ⟨List.mem_cons_of_mem pkg hmem2, hrest⟩
        · simp only [if_neg hc, Option.some.injEq, Prod.mk.injEq] at h
          obtain ⟨h1, h2, h3⟩ := h
          subst h1; subst h2; subst h3
          refine ⟨?_, ?_, ?_⟩
          · intro r
            rw [ihU r]
            constructor
            · rintro ⟨pkg2, hmem2, hrest⟩
              exact ⟨pkg2, List.mem_cons_of_mem pkg hmem2, hrest⟩
            · rintro ⟨pkg2, hmem2, lp2, hlp2, hc2, hsk2, hr2⟩
              rcases List.mem_cons.1 hmem2 with heq | hmem2
              · subst heq
                rw [hlp] at hlp2
                cases hlp2
                exact absurd hc2 hc
              · exact ⟨pkg2, hmem2, lp2, hlp2, hc2, hsk2, hr2⟩
          · intro r
            rw [ihN r]
            constructor
            · rintro ⟨pkg2, hmem2, hrest⟩
              exact ⟨pkg2, List.mem_cons_of_mem pkg hmem2, hrest⟩
            · rintro ⟨pkg2, hmem2, lp2, hlp2, hc2, hsk2, hr2⟩
              rcases List.mem_cons.1 hmem2 with heq | hmem2
              · subst heq
                rw [hlp] at hlp2
                cases hlp2
                exact absurd hc2 hc
              · exact ⟨pkg2, hmem2, lp2, hlp2, hc2, hsk2, hr2⟩
          · intro q hq
            rcases List.mem_cons.1 hq with heq | hq
            · subst heq
              exact ⟨List.mem_cons_self q rest, lp, hlp, hc⟩
            · obtain ⟨hmem2, hrest⟩ := ihT q hq
              exact ⟨List.mem_cons_of_mem pkg hmem2, hrest⟩

theorem aur_loop_total (compare_versions : String → String → Int)
    (local_packages : List (String × LocalPackage)) (ignore_outofdate : Bool)
    (pkgs : List AURPackageInfo)
    (hcomplete : ∀ q ∈ pkgs, (dictGet local_packages q.name).isSome = true) :
    ∃ out, find_aur_updates_loop compare_versions local_packages ignore_outofdate pkgs =
      some out := by
  induction pkgs with
  | nil => exact ⟨([], [], []), rfl⟩
  | cons pkg rest ih =>
    obtain ⟨⟨upd0, utd0, nts0⟩, hout⟩ :=
      ih (fun q hq => hcomplete q (List.mem_cons_of_mem pkg hq))
    obtain ⟨lp, hlp⟩ :=
      Option.isSome_iff_exists.1 (hcomplete pkg (List.mem_cons_self pkg rest))
    simp only [find_aur_updates_loop, hlp, hout]
    by_cases hc : compare_versions lp.version pkg.version < 0
    · by_cases hskip : (ignore_outofdate && pyTruthyOptInt pkg.outofdate) = true
      · simp only [if_pos hc, hskip, if_true]
        exact ⟨_, rfl⟩
      · have hskipf : (ignore_outofdate && pyTruthyOptInt pkg.outofdate) = false := by
          revert hskip
          cases ignore_outofdate && pyTruthyOptInt pkg.outofdate <;> simp
        simp only [if_pos hc, hskipf, Bool.false_eq_true, if_false]
        exact ⟨_, rfl⟩
    · simp only [if_neg hc]
      exact ⟨_, rfl⟩

theorem devel_loop_total (local_packages : List (String × LocalPackage))
    (now package_ttl_days : Int) (pkgs : List AURPackageInfo)
    (hdev : ∀ q ∈ pkgs, is_devel_pkg q.name = true →
      (dictGet local_packages q.name).isSome = true) :
    ∃ l, find_aur_devel_updates_loop local_packages now package_ttl_days pkgs = some l := by
  induction pkgs with
  | nil => exact ⟨[], rfl⟩
  | cons pkg rest ih =>
    obtain ⟨tail, htail⟩ := ih (fun q hq => hdev q (List.mem_cons_of_mem pkg hq))
    by_cases hd : is_devel_pkg pkg.name = true
    · obtain ⟨lp, hlp⟩ :=
        Option.isSome_iff_exists.1 (hdev pkg (List.mem_cons_self pkg rest) hd)
      simp only [find_aur_devel_updates_loop, if_pos hd, hlp, htail]
      by_cases hage : pkgAgeDays now lp.installdate ≥ package_ttl_days
      · simp only [if_pos hage]
        exact ⟨_, rfl⟩
      · simp only [if_neg hage]
        exact ⟨_, rfl⟩
    · simp only [find_aur_devel_updates_loop, if_neg hd]
      exact ⟨tail, htail⟩

theorem staleness_path_total (local_packages : List (String × LocalPackage))
    (now devel_pkgs_expiration_cfg : Int) (devel_flag : Bool)
    (pkgs : List AURPackageInfo)
    (hdev : ∀ q ∈ pkgs, is_devel_pkg q.name = true →
      (dictGet local_packages q.name).isSome = true) :
    ∃ l, staleness_path local_packages now devel_pkgs_expiration_cfg devel_flag pkgs =
      some l := by
  by_cases httl : (if devel_flag then (0 : Int) else devel_pkgs_expiration_cfg) > -1
  · simp only [staleness_path, if_pos httl]
    exact devel_loop_total local_packages now _ _
      (fun q hq => hdev q ((mem_pySorted _ q pkgs).1 hq))
  · simp only [staleness_path, if_neg httl]
    exact ⟨[], rfl⟩

theorem staleness_path_mem (local_packages : List (String × LocalPackage))
    (now devel_pkgs_expiration_cfg : Int) (devel_flag : Bool)
    (pkgs : List AURPackageInfo) (l : List AURInstallInfo)
    (h : staleness_path local_packages now devel_pkgs_expiration_cfg devel_flag pkgs =
      some l) (r : AURInstallInfo) (hr : r ∈ l) :
    ∃ pkg ∈ pkgs, ∃ lp, dictGet local_packages pkg.name = some lp ∧
      r = devel_install_info pkg lp (pkgAgeDays now lp.installdate) := by
  by_cases httl : (if devel_flag then (0 : Int) else devel_pkgs_expiration_cfg) > -1
  · simp only [staleness_path, if_pos httl] at h
    obtain ⟨pkg, hmem, hdev2, lp, hlp, hage, hrec⟩ :=
      (find_aur_devel_updates_mem _ _ _ _ _ h r).1 hr
    exact ⟨pkg, hmem, lp, hlp, hrec⟩
  · simp only [staleness_path, if_neg httl, Option.some.injEq] at h
    subst h
    exact absurd hr (List.not_mem_nil r)

/-! ## Claim C3 -/

/-- Claim C3 counterexample: the installed and remote versions of `foo-git`
compare equal (`compare_versions = 0`), yet `find_aur_updates` produces an
update record for that very package — the devel staleness path synthesizes
one (with the `"devel"` sentinel) because the package is 10 days old with a
TTL of 5. -/
theorem C3_counterexample :
    exCompareVersions "1.0" "1.0" = 0 ∧
    exDevelLocal.version = "1.0" ∧ exDevelPkg.version = "1.0" ∧
    find_aur_updates exCompareVersions exDevelLocals [exDevelPkg] [] false false 5 exNow =
      some ⟨[devel_install_info exDevelPkg exDevelLocal 10], [], []⟩ ∧
    (devel_install_info exDevelPkg exDevelLocal 10).name = exDevelPkg.name := by
  decide

/-- Claim C3 as amended: a package whose installed version compares equal to
its remote version yields no update record from the version-comparison
branch; every record `find_aur_updates` returns either stems from a package
whose remote version compared strictly newer, or is a staleness-synthesized
record carrying the `"devel"` sentinel as its new version. -/
theorem C3_amended (compare_versions : String → String → Int)
    (local_packages : List (String × LocalPackage))
    (aur_pkgs_info : List AURPackageInfo) (not_found_aur_pkgs : List String)
    (ignore_outofdate devel_flag : Bool) (devel_pkgs_expiration_cfg now : Int)
    (res : FindAURUpdatesResult)
    (h : find_aur_updates compare_versions local_packages aur_pkgs_info
      not_found_aur_pkgs ignore_outofdate devel_flag devel_pkgs_expiration_cfg now =
      some res)
    (r : AURInstallInfo) (hr : r ∈ res.updates) :
    (∃ pkg ∈ aur_pkgs_info, ∃ lp, dictGet local_packages pkg.name = some lp ∧
      compare_versions lp.version pkg.version < 0 ∧
      r = aur_update_install_info pkg lp.version) ∨
    r.new_version = "devel" := by
  simp only [find_aur_updates] at h
  cases hloop : find_aur_updates_loop compare_versions local_packages
      ignore_outofdate aur_pkgs_info with
  | none => rw [hloop] at h; exact absurd h (by simp)
  | some triple =>
    obtain ⟨upd, utd, nts⟩ := triple
    rw [hloop] at h
    have hspec := aur_loop_spec compare_versions local_packages ignore_outofdate
      aur_pkgs_info upd utd nts hloop
    by_cases hemp : utd.isEmpty = true
    · simp only [hemp, if_true, Option.some.injEq] at h
      subst h
      obtain ⟨pkg, hmem, lp, hlp, hc, hskip, hrr⟩ := (hspec.1 r).1 hr
      exact Or.inl ⟨pkg, hmem, lp, hlp, hc, hrr⟩
    · have hempf : utd.isEmpty = false := by
        revert hemp
        cases utd.isEmpty <;> simp
      simp only [hempf, Bool.false_eq_true, if_false] at h
      cases hsp : staleness_path local_packages now devel_pkgs_expiration_cfg
          devel_flag utd with
      | none => rw [hsp] at h; exact absurd h (by simp)
      | some dev =>
        rw [hsp] at h
        simp only [Option.some.injEq] at h
        subst h
        rcases List.mem_append.1 hr with hru | hrd
        · obtain ⟨pkg, hmem, lp, hlp, hc, hskip, hrr⟩ := (hspec.1 r).1 hru
          exact Or.inl ⟨pkg, hmem, lp, hlp, hc, hrr⟩
        · obtain ⟨pkg, hmem, lp, hlp, hrr⟩ :=
            staleness_path_mem _ _ _ _ _ _ hsp r hrd
          exact Or.inr (by rw [hrr]; rfl)

/-- Witness for claim C3 as amended, at the concrete `foo-git` input of the
counterexample: the single returned record is classified by the amended
dichotomy (here, the devel-sentinel side). -/
theorem C3_amended_witness :
    (∃ pkg ∈ [exDevelPkg], ∃ lp, dictGet exDevelLocals pkg.name = some lp ∧
      exCompareVersions lp.version pkg.version < 0 ∧
      devel_install_info exDevelPkg exDevelLocal 10 =
        aur_update_install_info pkg lp.version) ∨
    (devel_install_info exDevelPkg exDevelLocal 10).new_version = "devel" :=
  C3_amended exCompareVersions exDevelLocals [exDevelPkg] [] false false 5 exNow
    ⟨[devel_install_info exDevelPkg exDevelLocal 10], [], []⟩ (by decide)
    (devel_install_info exDevelPkg exDevelLocal 10) (by decide)

/-! ## Claim C7 -/

/-- Claim C7: for every AUR package whose remote version is strictly newer
than the installed one, if its out-of-date marker is set (truthy) and the
caller passed `--ignore-outofdate`, the classifier emits a skip notice and
excludes the record from the returned updates — returning successfully, not
raising; every other strictly-newer package's record is included in the
returned updates. -/
theorem C7_outofdate_skip (compare_versions : String → String → Int)
    (local_packages : List (String × LocalPackage))
    (aur_pkgs_info : List AURPackageInfo) (not_found_aur_pkgs : List String)
    (ignore_outofdate devel_flag : Bool) (devel_pkgs_expiration_cfg now : Int)
    (hcomplete : ∀ q ∈ aur_pkgs_info, (dictGet local_packages q.name).isSome = true) :
    ∃ res, find_aur_updates compare_versions local_packages aur_pkgs_info
        not_found_aur_pkgs ignore_outofdate devel_flag devel_pkgs_expiration_cfg now =
        some res ∧
      ∀ p ∈ aur_pkgs_info, ∀ lp, dictGet local_packages p.name = some lp →
        compare_versions lp.version p.version < 0 →
        (((ignore_outofdate && pyTruthyOptInt p.outofdate) = true →
          aur_update_install_info p lp.version ∈ res.outofdate_skip_notices ∧
          aur_update_install_info p lp.version ∉ res.updates) ∧
        ((ignore_outofdate && pyTruthyOptInt p.outofdate) = false →
          aur_update_install_info p lp.version ∈ res.updates)) := by
  obtain ⟨⟨upd, utd, nts⟩, hloop⟩ :=
    aur_loop_total compare_versions local_packages ignore_outofdate aur_pkgs_info hcomplete
  have hspec := aur_loop_spec compare_versions local_packages ignore_outofdate
    aur_pkgs_info upd utd nts hloop
  have not_in_upd : ∀ p ∈ aur_pkgs_info, ∀ lp, dictGet local_packages p.name = some lp →
      compare_versions lp.version p.version < 0 →
      (ignore_outofdate && pyTruthyOptInt p.outofdate) = true →
      aur_update_install_info p lp.version ∉ upd := by
    intro p hp lp hlp hc hskip hmem
    obtain ⟨pkg2, hmem2, lp2, hlp2, hc2, hsk2, hr2⟩ := (hspec.1 _).1 hmem
    have hpkg : p = pkg2 := congrArg AURInstallInfo.package hr2
    subst hpkg
    rw [hskip] at hsk2
    exact absurd hsk2 (by simp)
  have not_in_dev : ∀ dev,
      staleness_path local_packages now devel_pkgs_expiration_cfg devel_flag utd =
        some dev →
      ∀ p ∈ aur_pkgs_info, ∀ lp, dictGet local_packages p.name = some lp →
      compare_versions lp.version p.version < 0 →
      aur_update_install_info p lp.version ∉ dev := by
    intro dev hdev p hp lp hlp hc hmem
    obtain ⟨pkg2, hmem2, lp2, hlp2, hr2⟩ := staleness_path_mem _ _ _ _ _ _ hdev _ hmem
    have hpkg : p = pkg2 := congrArg AURInstallInfo.package hr2
    subst hpkg
    obtain ⟨hmem3, lq, hlq, hnc⟩ := hspec.2.2 p hmem2
    rw [hlp] at hlq
    cases hlq
    exact absurd hc hnc
  by_cases hemp : utd.isEmpty = true
  · refine ⟨⟨upd, not_found_aur_pkgs, nts⟩, ?_, ?_⟩
    · simp only [find_aur_updates, hloop, hemp, if_true]
    · intro p hp lp hlp hc
      refine ⟨fun hskip => ⟨?_, ?_⟩, fun hskip => ?_⟩
      · exact (hspec.2.1 _).2 ⟨p, hp, lp, hlp, hc, hskip, rfl⟩
      · exact not_in_upd p hp lp hlp hc hskip
      · exact (hspec.1 _).2 ⟨p, hp, lp, hlp, hc, hskip, rfl⟩
  · obtain ⟨dev, hdev⟩ := staleness_path_total local_packages now
      devel_pkgs_expiration_cfg devel_flag utd
      (fun q hq _ => hcomplete q (hspec.2.2 q hq).1)
    refine ⟨⟨upd ++ dev, not_found_aur_pkgs, nts⟩, ?_, ?_⟩
    · simp only [find_aur_updates, hloop, hemp, Bool.false_eq_true, if_false, hdev]
    · intro p hp lp hlp hc
      refine ⟨fun hskip => ⟨?_, ?_⟩, fun hskip => ?_⟩
      · exact (hspec.2.1 _).2 ⟨p, hp, lp, hlp, hc, hskip, rfl⟩
      · intro hmem
        rcases List.mem_append.1 hmem with hmem | hmem
        · exact not_in_upd p hp lp hlp hc hskip hmem
        · exact not_in_dev dev hdev p hp lp hlp hc hmem
      · exact List.mem_append_left dev ((hspec.1 _).2 ⟨p, hp, lp, hlp, hc, hskip, rfl⟩)

/-- Witness for claim C7, at a flagged out-of-date package `bar` (installed
1.0, remote 2.0, marker set) with `--ignore-outofdate` on. -/
theorem C7_outofdate_skip_witness :
    (∀ q ∈ [exOutofdatePkg], (dictGet exOutofdateLocals q.name).isSome = true) ∧
    ∃ res, find_aur_updates exCompareVersions exOutofdateLocals [exOutofdatePkg] []
        true false 5 exNow = some res ∧
      ∀ p ∈ [exOutofdatePkg], ∀ lp, dictGet exOutofdateLocals p.name = some lp →
        exCompareVersions lp.version p.version < 0 →
        (((true && pyTruthyOptInt p.outofdate) = true →
          aur_update_install_info p lp.version ∈ res.outofdate_skip_notices ∧
          aur_update_install_info p lp.version ∉ res.updates) ∧
        ((true && pyTruthyOptInt p.outofdate) = false →
          aur_update_install_info p lp.version ∈ res.updates)) :=
  ⟨by decide,
    C7_outofdate_skip exCompareVersions exOutofdateLocals [exOutofdatePkg] []
      true false 5 exNow (by decide)⟩

/-! ## Claim C9 -/

theorem dictGetI_mem {d : List (String × Int)} {k : String} {v : Int}
    (h : dictGetI d k = some v) : (k, v) ∈ d := by
  induction d with
  | nil => simp [dictGetI] at h
  | cons kv rest ih =>
    by_cases hk : kv.1 = k
    · simp only [dictGetI, if_pos hk, Option.some.injEq] at h
      subst h
      subst hk
      exact List.mem_cons_self kv rest
    · simp only [dictGetI, if_neg hk] at h
      exact List.mem_cons_of_mem kv (ih h)

theorem cacheGet_mem {d : List ((String × String) × Int)} {t i : String} {v : Int}
    (h : cacheGet d t i = some v) : ((t, i), v) ∈ d := by
  induction d with
  | nil => simp [cacheGet] at h
  | cons kv rest ih =>
    by_cases hk : kv.1 = (t, i)
    · simp only [cacheGet, if_pos hk, Option.some.injEq] at h
      subst h
      rw [← hk]
      exact List.mem_cons_self kv rest
    · simp only [cacheGet, if_neg hk] at h
      exact List.mem_cons_of_mem kv (ih h)

theorem dictSetI_mem {d : List (String × Int)} {k : String} {v : Int}
    {kv : String × Int} (h : kv ∈ dictSetI d k v) : kv = (k, v) ∨ kv ∈ d := by
  induction d with
  | nil =>
    simp only [dictSetI] at h
    rcases List.mem_cons.1 h with h | h
    · exact Or.inl h
    · exact absurd h (List.not_mem_nil kv)
  | cons kv2 rest ih =>
    by_cases hk : kv2.1 = k
    · simp only [dictSetI, if_pos hk] at h
      rcases List.mem_cons.1 h with h | h
      · exact Or.inl h
      · exact Or.inr (List.mem_cons_of_mem kv2 h)
    · simp only [dictSetI, if_neg hk] at h
      rcases List.mem_cons.1 h with h | h
      · exact Or.inr (h ▸ List.mem_cons_self kv2 rest)
      · rcases ih h with h | h
        · exact Or.inl h
        · exact Or.inr (List.mem_cons_of_mem kv2 h)

theorem cacheSet_mem {d : List ((String × String) × Int)} {t i : String} {v : Int}
    {kv : (String × String) × Int} (h : kv ∈ cacheSet d t i v) :
    kv = ((t, i), v) ∨ kv ∈ d := by
  induction d with
  | nil =>
    simp only [cacheSet] at h
    rcases List.mem_cons.1 h with h | h
    · exact Or.inl h
    · exact absurd h (List.not_mem_nil kv)
  | cons kv2 rest ih =>
    by_cases hk : kv2.1 = (t, i)
    · simp only [cacheSet, if_pos hk] at h
      rcases List.mem_cons.1 h with h | h
      · exact Or.inl h
      · exact Or.inr (List.mem_cons_of_mem kv2 h)
    · simp only [cacheSet, if_neg hk] at h
      rcases List.mem_cons.1 h with h | h
      · exact Or.inr (h ▸ List.mem_cons_self kv2 rest)
      · rcases ih h with h | h
        · exact Or.inl h
        · exact Or.inr (List.mem_cons_of_mem kv2 h)

theorem cacheSet_get_self (d : List ((String × String) × Int)) (t i : String) (v : Int) :
    cacheGet (cacheSet d t i v) t i = some v := by
  induction d with
  | nil => simp [cacheSet, cacheGet]
  | cons kv rest ih =>
    by_cases hk : kv.1 = (t, i)
    · simp [cacheSet, hk, cacheGet]
    · simp [cacheSet, hk, cacheGet, ih]

theorem cacheSet_get_other (d : List ((String × String) × Int)) (t i t2 i2 : String)
    (v : Int) (hne : (t2, i2) ≠ (t, i)) :
    cacheGet (cacheSet d t i v) t2 i2 = cacheGet d t2 i2 := by
  have h1 : ¬ ((t, i) : String × String) = (t2, i2) := fun h => hne h.symm
  induction d with
  | nil =>
    simp only [cacheSet, cacheGet, if_neg h1]
  | cons kv rest ih =>
    by_cases hk : kv.1 = (t, i)
    · have h2 : ¬ kv.1 = (t2, i2) := by rw [hk]; exact h1
      simp only [cacheSet, if_pos hk, cacheGet, if_neg h1, if_neg h2, ih]
    · by_cases hk3 : kv.1 = (t2, i2)
      · simp only [cacheSet, if_neg hk, cacheGet, if_pos hk3]
      · simp only [cacheSet, if_neg hk, cacheGet, if_neg hk3, ih]

theorem get_next_assign_spec (s : RepoColorState) (t i : String) (h : colorInv s) :
    ∃ c, get_next_assign s t i =
      (c, ⟨dictSetI s.type_storage t c, cacheSet s.cache t i c⟩) ∧
      10 ≤ c ∧ c ≤ 15 ∧
      (dictGetI s.type_storage t = none → c = 10) ∧
      (∀ v, dictGetI s.type_storage t = some v →
        c = if v ≥ MAX_COLOR then 10 else v + 1) := by
  cases hv : dictGetI s.type_storage t with
  | none =>
    refine ⟨10, by simp [get_next_assign, hv], by norm_num, by norm_num, fun _ => rfl, ?_⟩
    intro v hv2
    cases hv2
  | some v =>
    obtain ⟨h1, h2⟩ := h.1 _ (dictGetI_mem hv)
    simp only at h1 h2
    have h0 : ¬ v = 0 := by omega
    by_cases h15 : v ≥ MAX_COLOR
    · refine ⟨10, by simp [get_next_assign, hv, h0, h15], by norm_num, by norm_num, ?_, ?_⟩
      · intro hn; cases hn
      · intro v2 hv2
        cases hv2
        simp [h15]
    · have hlt : v < 15 := by
        have hlt2 : ¬ v ≥ 15 := by simpa [MAX_COLOR] using h15
        omega
      refine ⟨v + 1, by simp [get_next_assign, hv, h0, h15], by omega, by omega, ?_, ?_⟩
      · intro hn; cases hn
      · intro v2 hv2
        cases hv2
        simp [h15]

theorem get_next_hit {s : RepoColorState} {t i : String} {c : Int} (h : colorInv s)
    (hc : cacheGet s.cache t i = some c) : get_next s t i = (c, s) := by
  obtain ⟨h1, h2⟩ := h.2 _ (cacheGet_mem hc)
  have hc0 : c ≠ 0 := by omega
  simp [get_next, hc, hc0]

theorem get_next_inv {s : RepoColorState} (t i : String) (h : colorInv s) :
    colorInv (get_next s t i).2 := by
  cases hc : cacheGet s.cache t i with
  | some c =>
    rw [get_next_hit h hc]
    exact h
  | none =>
    obtain ⟨c, heq, hb1, hb2, _, _⟩ := get_next_assign_spec s t i h
    simp only [get_next, hc, heq]
    constructor
    · intro kv hkv
      rcases dictSetI_mem hkv with hkv | hkv
      · subst hkv; exact ⟨hb1, hb2⟩
      · exact h.1 kv hkv
    · intro kv hkv
      rcases cacheSet_mem hkv with hkv | hkv
      · subst hkv; exact ⟨hb1, hb2⟩
      · exact h.2 kv hkv

theorem get_next_cached {s : RepoColorState} (t i : String) (h : colorInv s) :
    cacheGet (get_next s t i).2.cache t i = some (get_next s t i).1 := by
  cases hc : cacheGet s.cache t i with
  | some c =>
    rw [get_next_hit h hc]
    exact hc
  | none =>
    obtain ⟨c, heq, _, _, _, _⟩ := get_next_assign_spec s t i h
    simp only [get_next, hc, heq]
    exact cacheSet_get_self s.cache t i c

theorem get_next_preserve {s : RepoColorState} {t2 i2 : String} {c : Int}
    (t i : String) (h : colorInv s) (hc2 : cacheGet s.cache t2 i2 = some c) :
    cacheGet (get_next s t i).2.cache t2 i2 = some c := by
  cases hc : cacheGet s.cache t i with
  | some c0 =>
    rw [get_next_hit h hc]
    exact hc2
  | none =>
    obtain ⟨cn, heq, _, _, _, _⟩ := get_next_assign_spec s t i h
    have hne : (t2, i2) ≠ (t, i) := by
      intro heq
      cases heq
      rw [hc2] at hc
      cases hc
    simp only [get_next, hc, heq]
    rw [cacheSet_get_other s.cache t i t2 i2 cn hne]
    exact hc2

theorem runColorRequests_cached {t i : String} {c : Int} :
    ∀ (reqs : List (String × String)) (s : RepoColorState), colorInv s →
      cacheGet s.cache t i = some c → ∀ j, reqs.get? j = some (t, i) →
      (runColorRequests s reqs).2.get? j = some c := by
  intro reqs
  induction reqs with
  | nil =>
    intro s hinv hc j hj
    simp at hj
  | cons req rest ih =>
    intro s hinv hc j hj
    cases j with
    | zero =>
      simp only [List.get?_cons_zero, Option.some.injEq] at hj
      subst hj
      simp only [runColorRequests, get_next_hit hinv hc, List.get?_cons_zero]
    | succ j =>
      simp only [List.get?_cons_succ] at hj
      simp only [runColorRequests, List.get?_cons_succ]
      exact ih (get_next s req.1 req.2).2 (get_next_inv req.1 req.2 hinv)
        (get_next_preserve req.1 req.2 hinv hc) j hj

theorem runColorRequests_consistent :
    ∀ (reqs : List (String × String)) (s : RepoColorState), colorInv s →
      ∀ (j k : Nat) (q : String × String), reqs.get? j = some q →
      reqs.get? k = some q →
      (runColorRequests s reqs).2.get? j = (runColorRequests s reqs).2.get? k := by
  intro reqs
  induction reqs with
  | nil =>
    intro s hinv j k q hj hk
    simp at hj
  | cons req rest ih =>
    intro s hinv j k q hj hk
    have hinv2 := get_next_inv req.1 req.2 hinv
    cases j with
    | zero =>
      cases k with
      | zero => rfl
      | succ k =>
        simp only [List.get?_cons_zero, Option.some.injEq] at hj
        simp only [List.get?_cons_succ] at hk
        subst hj
        have hcache := get_next_cached req.1 req.2 hinv
        simp only [runColorRequests, List.get?_cons_zero, List.get?_cons_succ]
        exact (runColorRequests_cached rest _ hinv2 hcache k hk).symm
    | succ j =>
      cases k with
      | zero =>
        simp only [List.get?_cons_succ] at hj
        simp only [List.get?_cons_zero, Option.some.injEq] at hk
        subst hk
        have hcache := get_next_cached req.1 req.2 hinv
        simp only [runColorRequests, List.get?_cons_zero, List.get?_cons_succ]
        exact runColorRequests_cached rest _ hinv2 hcache j hj
      | succ k =>
        simp only [List.get?_cons_succ] at hj hk
        simp only [runColorRequests, List.get?_cons_succ]
        exact ih _ hinv2 j k q hj hk

theorem colorInv_init : colorInv repoColorInit := by
  constructor <;> intro kv hkv <;> simp [repoColorInit] at hkv

/-- Claim C9: the per-repository color assignment is idempotent within a
process — over any request sequence from the initial state, two requests for
the same (category, name) pair return the same color — and on a cache miss
the color is drawn from the per-category counter, starting at 10 and cycling
back to 10 once the counter has reached `_MAX_COLOR` (15), so first-seen
names receive 10, 11, …, 15, 10, … in order, as the concrete run shows. -/
theorem C9_repo_color_generator :
    (∀ (reqs : List (String × String)) (j k : Nat) (q : String × String),
      reqs.get? j = some q → reqs.get? k = some q →
      (runColorRequests repoColorInit reqs).2.get? j =
        (runColorRequests repoColorInit reqs).2.get? k) ∧
    (∀ (s : RepoColorState) (t i : String), colorInv s →
      cacheGet s.cache t i = none →
      ((dictGetI s.type_storage t = none → (get_next s t i).1 = 10) ∧
        (∀ v, dictGetI s.type_storage t = some v →
          (get_next s t i).1 = if v ≥ MAX_COLOR then 10 else v + 1))) ∧
    (runColorRequests repoColorInit exColorReqs).2 =
      [10, 11, 12, 13, 14, 15, 10, 10] := by
  refine ⟨?_, ?_, by decide⟩
  · intro reqs j k q hj hk
    exact runColorRequests_consistent reqs repoColorInit colorInv_init j k q hj hk
  · intro s t i hinv hc
    obtain ⟨c, heq, _, _, hnone, hsome⟩ := get_next_assign_spec s t i hinv
    constructor
    · intro hn
      simp only [get_next, hc, heq]
      exact hnone hn
    · intro v hv
      simp only [get_next, hc, heq]
      exact hsome v hv

/-- Witness for claim C9: in the concrete three-request run the first and
third requests name the same repository and receive the same color. -/
theorem C9_repo_color_generator_witness :
    (exColorReqsSmall.get? 0 = some ("repo", "core") ∧
      exColorReqsSmall.get? 2 = some ("repo", "core")) ∧
    (runColorRequests repoColorInit exColorReqsSmall).2.get? 0 =
      (runColorRequests repoColorInit exColorReqsSmall).2.get? 2 :=
  ⟨⟨by decide, by decide⟩,
    C9_repo_color_generator.1 exColorReqsSmall 0 2 ("repo", "core")
      (by decide) (by decide)⟩

end Pikaur
